import Mathlib

/-!
# Verification of the insights-mcp storage layer

A shallow embedding of `src/database.ts` (class `InsightsDatabase`, backed by
SQLite with an FTS5 full-text index maintained by `AFTER INSERT/UPDATE/DELETE`
triggers) and of the mode-aware context handling in `src/server.ts`.

Modelling conventions:
* The `insights` table is a list of rows in rowid order; SQLite's implicit
  rowid is modelled by a `nextRowid` counter (fresh rowids are `max+1`-style
  increasing, which is what SQLite does for a table that has never had its
  maximum rowid deleted; only distinctness and freshness of rowids matter for
  the claims proved here).
* `metadata` is the opaque serialized blob stored in the `metadata` column
  (`JSON.stringify` of the caller's object, or SQL `NULL`), modelled as
  `Option String`.  `JSON.stringify`/`JSON.parse` round-tripping is the
  identity on this representation.
* Timestamps (`Date.now()`) are passed to each operation explicitly.
* `randomUUID()` is passed explicitly; where a claim needs it, freshness is a
  hypothesis.
* The FTS5 triggers fire inside the same SQL statement as the primary-table
  write, so each mutation is a single step of the model.
* The FTS5 query engine (`MATCH` / `rank`) is external to the repository; it
  is a parameter `Fts5Engine`: a query either fails to parse (query-syntax
  error, surfaced by better-sqlite3 as a thrown `SqliteError`) or denotes a
  boolean match predicate and a relevance rank over the indexed columns
  `(content, metadata)`.
-/

namespace InsightsMCP

/-- A row of the `insights` table (`CREATE TABLE insights` in `initSchema`):
`id TEXT PRIMARY KEY, content TEXT NOT NULL, context TEXT NOT NULL,
metadata TEXT, created_at INTEGER NOT NULL, updated_at INTEGER NOT NULL`,
together with SQLite's implicit rowid. -/
structure Row where
  rowid : Nat
  id : String
  content : String
  context : String
  metadata : Option String
  created_at : Nat
  updated_at : Nat
deriving Repr, DecidableEq

/-- A row of the FTS5 shadow table `insights_fts(content, metadata)` with
`content_rowid='rowid'`: it is keyed by the rowid of the mirrored row. -/
structure FtsRow where
  rowid : Nat
  content : String
  metadata : Option String
deriving Repr, DecidableEq

/-- The FTS entry the `insights_ai` trigger derives from an inserted row. -/
def mirror (r : Row) : FtsRow :=
  ⟨r.rowid, r.content, r.metadata⟩

/-- Database state: the `insights` table (in rowid order), the `insights_fts`
table, and the next fresh rowid. -/
structure DB where
  rows : List Row
  fts : List FtsRow
  nextRowid : Nat
deriving Repr, DecidableEq

/-- A freshly created database (after `initSchema`): both tables empty. -/
def DB.empty : DB := ⟨[], [], 1⟩

/-- The `Insight` interface of `types.ts` as returned to callers
(`rowToInsight` / the object literals built by `save` and `update`);
`metadata` is kept in its serialized representation. -/
structure Insight where
  id : String
  content : String
  context : String
  metadata : Option String
  created_at : Nat
  updated_at : Nat
deriving Repr, DecidableEq

/-- `rowToInsight`: converts a fetched row to the caller-facing record
(`JSON.parse` of the blob is the identity in this representation; a row with
`NULL` metadata yields `undefined`, i.e. `none`). -/
def rowToInsight (r : Row) : Insight :=
  ⟨r.id, r.content, r.context, r.metadata, r.created_at, r.updated_at⟩

/-- SQLite storage errors surfaced by `better-sqlite3` as thrown exceptions. -/
inductive StorageError where
  | constraintViolation
deriving Repr, DecidableEq

/-- `InsightsDatabase.save(content, context, metadata?)`: `INSERT INTO
insights` with a caller-supplied fresh uuid and `created_at = updated_at =
now`; the `insights_ai` trigger inserts the matching `insights_fts` entry in
the same statement.  Inserting a duplicate `id` violates the `PRIMARY KEY`
constraint: the statement throws and changes nothing. -/
def DB.save (db : DB) (uuid : String) (now : Nat) (content ctx : String)
    (metadata : Option String) : Except StorageError (DB × Insight) :=
  if db.rows.any (fun r => r.id == uuid) then
    .error .constraintViolation
  else
    let r : Row := ⟨db.nextRowid, uuid, content, ctx, metadata, now, now⟩
    .ok (⟨db.rows ++ [r], db.fts ++ [mirror r], db.nextRowid + 1⟩,
      ⟨uuid, content, ctx, metadata, now, now⟩)

/-- `InsightsDatabase.get(id)`: `SELECT * FROM insights WHERE id = ?`,
`stmt.get` returning the first matching row or `null`. -/
def DB.get (db : DB) (id : String) : Option Insight :=
  (db.rows.find? (fun r => r.id == id)).map rowToInsight

/-- Effect of `UPDATE insights SET content = ?, metadata = ?, updated_at = ?
WHERE id = ?` on one primary row. -/
def applyUpd (id : String) (now : Nat) (content : String)
    (metadata : Option String) (r : Row) : Row :=
  if r.id == id then
    { r with content := content, metadata := metadata, updated_at := now }
  else r

/-- Effect of the `insights_au` trigger on one `insights_fts` row: the rows
the `UPDATE` touched are those whose (id, rowid) match. -/
def applyUpdFts (rows : List Row) (id : String) (content : String)
    (metadata : Option String) (f : FtsRow) : FtsRow :=
  if rows.any (fun r => r.id == id && r.rowid == f.rowid) then
    { f with content := content, metadata := metadata }
  else f

/-- `InsightsDatabase.update(id, {content?, metadata?})`: reads the existing
record via `get`; on `null` returns `null` without touching the database.
Otherwise `content = updates.content ?? existing.content`,
`metadata = updates.metadata ?? existing.metadata`, then
`UPDATE insights SET content = ?, metadata = ?, updated_at = ? WHERE id = ?`;
the `insights_au` trigger rewrites the `insights_fts` entry of every updated
row (keyed by its rowid) in the same statement.  Returns
`{...existing, content, metadata, updated_at: now}`. -/
def DB.update (db : DB) (id : String) (now : Nat) (content? : Option String)
    (metadata? : Option String) : DB × Option Insight :=
  match db.rows.find? (fun r => r.id == id) with
  | none => (db, none)
  | some existing =>
    let content := content?.getD existing.content
    let metadata := metadata?.or existing.metadata
    (⟨db.rows.map (applyUpd id now content metadata),
      db.fts.map (applyUpdFts db.rows id content metadata), db.nextRowid⟩,
      some ⟨existing.id, content, existing.context, metadata,
        existing.created_at, now⟩)

/-- `InsightsDatabase.delete(id)`: `DELETE FROM insights WHERE id = ?`; the
`insights_ad` trigger deletes the `insights_fts` entry of every deleted row
(keyed by its rowid) in the same statement.  Returns `result.changes > 0`. -/
def DB.delete (db : DB) (id : String) : DB × Bool :=
  let rows := db.rows.filter (fun r => !(r.id == id))
  let fts := db.fts.filter (fun f =>
    !(db.rows.any (fun r => r.id == id && r.rowid == f.rowid)))
  (⟨rows, fts, db.nextRowid⟩, db.rows.any (fun r => r.id == id))

/-- JavaScript truthiness of the optional `context` argument
(`string | undefined`): `undefined` and the empty string are falsy. -/
def truthy : Option String → Bool
  | none => false
  | some s => !(s == "")

/-- The `{ results, total, hasMore }` shape returned by `list` and `search`. -/
structure Page where
  results : List Insight
  total : Nat
  hasMore : Bool
deriving Repr, DecidableEq

/-- Descending `created_at` order of `ORDER BY created_at DESC` (ties left in
scan order; SQLite does not specify a tie-break). -/
def createdDesc (a b : Row) : Prop :=
  b.created_at ≤ a.created_at

instance : DecidableRel createdDesc :=
  fun a b => Nat.decLe b.created_at a.created_at

instance : IsTotal Row createdDesc :=
  ⟨fun a b => Nat.le_total b.created_at a.created_at⟩

instance : IsTrans Row createdDesc :=
  ⟨fun _ _ _ hab hbc => Nat.le_trans hbc hab⟩

/-- `InsightsDatabase.list(context?, limit, offset)`: a `WHERE context = ?`
filter is appended only when `context` is truthy; `total` comes from the
`COUNT(*)` query with the same filter; the page is
`ORDER BY created_at DESC LIMIT ? OFFSET ?`;
`hasMore = offset + results.length < total`. -/
def listFiltered (db : DB) (context : Option String) : List Row :=
  if truthy context then
    db.rows.filter (fun r => r.context == context.getD "")
  else db.rows

def DB.list (db : DB) (context : Option String) (limit offset : Nat) : Page :=
  let filtered := listFiltered db context
  let total := filtered.length
  let page := ((List.insertionSort createdDesc filtered).drop offset).take limit
  ⟨page.map rowToInsight, total, decide (offset + page.length < total)⟩

/-- Faults raised out of `search` when FTS5 rejects the raw `MATCH` query
string (better-sqlite3 throws; the store does not catch it). -/
inductive QueryError where
  | querySyntax
deriving Repr, DecidableEq

/-- The external FTS5 query engine, abstracted: `valid` is whether the query
string parses as FTS5 syntax; `matchQ` is the `MATCH` predicate over the
indexed columns `(content, metadata)`; `rank` is the relevance rank column
(smaller is better, as in FTS5). -/
structure Fts5Engine where
  valid : String → Bool
  matchQ : String → String → Option String → Bool
  rank : String → String → Option String → Int

/-- `ORDER BY rank` order for a fixed query (ties left in scan order; SQLite
does not specify a tie-break). -/
def rankLe (e : Fts5Engine) (q : String) (a b : Row × FtsRow) : Prop :=
  e.rank q a.2.content a.2.metadata ≤ e.rank q b.2.content b.2.metadata

instance (e : Fts5Engine) (q : String) : DecidableRel (rankLe e q) :=
  fun _ _ => Int.decLe _ _

instance (e : Fts5Engine) (q : String) : IsTotal (Row × FtsRow) (rankLe e q) :=
  ⟨fun _ _ => Int.le_total _ _⟩

instance (e : Fts5Engine) (q : String) : IsTrans (Row × FtsRow) (rankLe e q) :=
  ⟨fun _ _ _ hab hbc => le_trans hab hbc⟩

/-- `InsightsDatabase.search(query, context?, limit, offset)`:
`SELECT insights.*, rank FROM insights_fts JOIN insights ON insights.rowid =
insights_fts.rowid WHERE insights_fts MATCH ?`, with `AND insights.context = ?`
appended only when `context` is truthy, `ORDER BY rank LIMIT ? OFFSET ?`; the
`COUNT(*)` query repeats the same join and filters.  A query FTS5 cannot parse
makes both statements throw. -/
def searchJoin (db : DB) (e : Fts5Engine) (query : String)
    (context : Option String) : List (Row × FtsRow) :=
  db.fts.filterMap (fun f =>
    if e.matchQ query f.content f.metadata then
      match db.rows.find? (fun r => r.rowid == f.rowid) with
      | some r =>
        if truthy context then
          if r.context == context.getD "" then some (r, f) else none
        else some (r, f)
      | none => none
    else none)

/-- `InsightsDatabase.search(query, context?, limit, offset)`: the joined set
`ORDER BY rank LIMIT ? OFFSET ?`; `total` from the `COUNT(*)` twin query with
the same join and filters; a query FTS5 cannot parse makes both statements
throw (better-sqlite3 surfaces it as a thrown `SqliteError`). -/
def DB.search (db : DB) (e : Fts5Engine) (query : String)
    (context : Option String) (limit offset : Nat) : Except QueryError Page :=
  if !(e.valid query) then
    .error .querySyntax
  else
    let joined := searchJoin db e query context
    let total := joined.length
    let page := ((List.insertionSort (rankLe e query) joined).drop offset).take limit
    .ok ⟨page.map (fun p => rowToInsight p.1), total,
      decide (offset + page.length < total)⟩

/-! ## The adapter (`src/server.ts`) -/

/-- The two access modes `createInsightsServer(db, mode)` is built for. -/
inductive Mode where
  | stdio
  | http
deriving Repr, DecidableEq

/-- Faults thrown by the adapter before it reaches the store. -/
inductive AdapterError where
  | contextRequired
deriving Repr, DecidableEq

/-- The `getContext` helper of `server.ts`:
`if (mode === 'http' && !providedContext) throw; return providedContext ||
process.cwd()`.  `cwd` is the ambient `process.cwd()`. -/
def getContext (mode : Mode) (cwd : String) (provided : Option String) :
    Except AdapterError String :=
  if mode == .http && !(truthy provided) then
    .error .contextRequired
  else
    .ok (if truthy provided then provided.getD "" else cwd)

/-- The `save-insight` handler: `const resolvedContext = getContext(context);
db.save(content, resolvedContext, metadata)`. -/
def saveHandler (mode : Mode) (cwd : String) (db : DB) (uuid : String)
    (now : Nat) (content : String) (context : Option String)
    (metadata : Option String) :
    Except AdapterError (Except StorageError (DB × Insight)) :=
  match getContext mode cwd context with
  | .error e => .error e
  | .ok ctx => .ok (db.save uuid now content ctx metadata)

/-- The `list-insights` handler: `const resolvedContext = context ?
getContext(context) : undefined; db.list(resolvedContext, limit ?? 20,
offset ?? 0)`. -/
def listHandler (mode : Mode) (cwd : String) (db : DB)
    (context : Option String) (limit offset : Nat) :
    Except AdapterError Page :=
  if truthy context then
    match getContext mode cwd context with
    | .error e => .error e
    | .ok ctx => .ok (db.list (some ctx) limit offset)
  else
    .ok (db.list none limit offset)

/-- The `search-insights` handler: `const resolvedContext = context ?
getContext(context) : undefined; db.search(query, resolvedContext,
limit ?? 20, offset ?? 0)`. -/
def searchHandler (mode : Mode) (cwd : String) (db : DB) (e : Fts5Engine)
    (query : String) (context : Option String) (limit offset : Nat) :
    Except AdapterError (Except QueryError Page) :=
  if truthy context then
    match getContext mode cwd context with
    | .error err => .error err
    | .ok ctx => .ok (db.search e query (some ctx) limit offset)
  else
    .ok (db.search e query none limit offset)

/-! ## Operation sequences and the index-consistency invariant -/

/-- One mutating store call, with its ambient uuid / clock inputs. -/
inductive Op where
  | save (uuid : String) (now : Nat) (content ctx : String)
      (metadata : Option String)
  | update (id : String) (now : Nat) (content? metadata? : Option String)
  | del (id : String)
deriving Repr, DecidableEq

/-- Resulting database state of one completed operation.  A `save` whose uuid
collides throws out of the `INSERT`; the statement leaves the state
unchanged. -/
def execOp (db : DB) : Op → DB
  | .save uuid now content ctx metadata =>
    match db.save uuid now content ctx metadata with
    | .ok (db2, _) => db2
    | .error _ => db
  | .update id now content? metadata? => (db.update id now content? metadata?).1
  | .del id => (db.delete id).1

/-- The state after running an operation sequence on a fresh database. -/
def execOps (ops : List Op) : DB :=
  ops.foldl execOp DB.empty

/-- The index-consistency invariant of the model: rowids and ids are unique,
all rowids are below the fresh counter, and the `insights_fts` table is
exactly the rowwise mirror of the `insights` table. -/
structure Inv (db : DB) : Prop where
  rowidsNodup : (db.rows.map Row.rowid).Nodup
  idsNodup : (db.rows.map Row.id).Nodup
  rowidsLt : ∀ r ∈ db.rows, r.rowid < db.nextRowid
  ftsMirror : db.fts = db.rows.map mirror

/-- With distinct rowids, the trigger condition `new.id = ? AND new.rowid =
f.rowid` instantiated at a member row reduces to that row's id test. -/
theorem any_id_rowid_eq {rows : List Row} (hnd : (rows.map Row.rowid).Nodup)
    {r : Row} (hr : r ∈ rows) (id : String) :
    (rows.any fun row => row.id == id && row.rowid == r.rowid) = (r.id == id) := by
  by_cases h : r.id = id
  · have hrhs : (r.id == id) = true := by simp [h]
    rw [hrhs, List.any_eq_true]
    exact ⟨r, hr, by simp [h]⟩
  · have hrhs : (r.id == id) = false := by simp [h]
    rw [hrhs, List.any_eq_false]
    intro row hrow hcontra
    simp only [Bool.and_eq_true, beq_iff_eq] at hcontra
    obtain ⟨h1, h2⟩ := hcontra
    have heq : row = r := List.inj_on_of_nodup_map hnd hrow hr h2
    exact h (heq ▸ h1)

/-- With distinct rowids, looking up a member row by its rowid finds it. -/
theorem find?_rowid_eq {rows : List Row} (hnd : (rows.map Row.rowid).Nodup)
    {r : Row} (hr : r ∈ rows) :
    rows.find? (fun row => row.rowid == r.rowid) = some r := by
  induction rows with
  | nil => cases hr
  | cons x t ih =>
    rw [List.map_cons, List.nodup_cons] at hnd
    obtain ⟨hnotin, hnd2⟩ := hnd
    rcases List.mem_cons.mp hr with heq | hmem
    · rw [heq]
      simp [List.find?_cons]
    · have hne : (x.rowid == r.rowid) = false := by
        simp only [beq_eq_false_iff_ne, ne_eq]
        intro hcontra
        exact hnotin (hcontra ▸ List.mem_map_of_mem Row.rowid hmem)
      simp only [List.find?_cons, hne]
      exact ih hnd2 hmem

/-- With distinct rowids, filtering for a member row's rowid yields exactly
that row. -/
theorem filter_rowid_eq {rows : List Row} (hnd : (rows.map Row.rowid).Nodup)
    {r : Row} (hr : r ∈ rows) :
    rows.filter (fun row => row.rowid == r.rowid) = [r] := by
  induction rows with
  | nil => cases hr
  | cons x t ih =>
    rw [List.map_cons, List.nodup_cons] at hnd
    obtain ⟨hnotin, hnd2⟩ := hnd
    rcases List.mem_cons.mp hr with heq | hmem
    · rw [heq]
      rw [List.filter_cons, if_pos (by simp)]
      have hnil : t.filter (fun row => row.rowid == x.rowid) = [] := by
        rw [List.filter_eq_nil_iff]
        intro a ha hcontra
        rw [beq_iff_eq] at hcontra
        exact hnotin (hcontra ▸ List.mem_map_of_mem Row.rowid ha)
      rw [hnil]
    · have hne : ¬ ((x.rowid == r.rowid) = true) := by
        simp only [beq_iff_eq]
        intro hcontra
        exact hnotin (hcontra ▸ List.mem_map_of_mem Row.rowid hmem)
      rw [List.filter_cons, if_neg hne]
      exact ih hnd2 hmem

/-- Unfolding `save` on a colliding uuid: the `INSERT` throws. -/
theorem save_of_dup {db : DB} {uuid : String} {now : Nat}
    {content ctx : String} {metadata : Option String}
    (h : (db.rows.any fun r => r.id == uuid) = true) :
    db.save uuid now content ctx metadata = .error .constraintViolation := by
  simp [DB.save, h]

/-- Unfolding `save` on a fresh uuid: the row and its FTS mirror are appended
and the fresh Insight is returned. -/
theorem save_of_fresh {db : DB} {uuid : String} {now : Nat}
    {content ctx : String} {metadata : Option String}
    (h : (db.rows.any fun r => r.id == uuid) = false) :
    db.save uuid now content ctx metadata =
      .ok (⟨db.rows ++ [⟨db.nextRowid, uuid, content, ctx, metadata, now, now⟩],
        db.fts ++ [⟨db.nextRowid, content, metadata⟩], db.nextRowid + 1⟩,
        ⟨uuid, content, ctx, metadata, now, now⟩) := by
  simp [DB.save, h, mirror]

/-- Unfolding `update` on a missing id: `get` returned `null`, nothing
happens. -/
theorem update_of_missing {db : DB} {id : String} {now : Nat}
    {content? metadata? : Option String}
    (h : db.rows.find? (fun r => r.id == id) = none) :
    db.update id now content? metadata? = (db, none) := by
  simp [DB.update, h]

/-- Unfolding `update` on an existing id. -/
theorem update_of_found {db : DB} {id : String} {now : Nat}
    {content? metadata? : Option String} {existing : Row}
    (h : db.rows.find? (fun r => r.id == id) = some existing) :
    db.update id now content? metadata? =
      (⟨db.rows.map (applyUpd id now (content?.getD existing.content)
          (metadata?.or existing.metadata)),
        db.fts.map (applyUpdFts db.rows id (content?.getD existing.content)
          (metadata?.or existing.metadata)), db.nextRowid⟩,
        some ⟨existing.id, content?.getD existing.content, existing.context,
          metadata?.or existing.metadata, existing.created_at, now⟩) := by
  simp [DB.update, h]

theorem applyUpd_rowid (id : String) (now : Nat) (content : String)
    (metadata : Option String) (r : Row) :
    (applyUpd id now content metadata r).rowid = r.rowid := by
  unfold applyUpd
  split <;> rfl

theorem applyUpd_id (id : String) (now : Nat) (content : String)
    (metadata : Option String) (r : Row) :
    (applyUpd id now content metadata r).id = r.id := by
  unfold applyUpd
  split <;> rfl

theorem applyUpd_context (id : String) (now : Nat) (content : String)
    (metadata : Option String) (r : Row) :
    (applyUpd id now content metadata r).context = r.context := by
  unfold applyUpd
  split <;> rfl

theorem applyUpd_created_at (id : String) (now : Nat) (content : String)
    (metadata : Option String) (r : Row) :
    (applyUpd id now content metadata r).created_at = r.created_at := by
  unfold applyUpd
  split <;> rfl

/-- The `insights_au` trigger commutes with mirroring: updating a row and
re-deriving its FTS entry is the same as the trigger's in-place rewrite. -/
theorem applyUpdFts_mirror {rows : List Row}
    (hnd : (rows.map Row.rowid).Nodup) {r : Row} (hr : r ∈ rows)
    (id : String) (now : Nat) (content : String) (metadata : Option String) :
    applyUpdFts rows id content metadata (mirror r) =
      mirror (applyUpd id now content metadata r) := by
  unfold applyUpdFts applyUpd mirror
  simp only
  rw [any_id_rowid_eq hnd hr]
  by_cases h : (r.id == id) = true <;> simp [h]

/-- The fresh database satisfies the invariant. -/
theorem inv_empty : Inv DB.empty := by
  constructor <;> simp [DB.empty]

/-- Every completed store mutation preserves the index-consistency
invariant. -/
theorem inv_execOp {db : DB} (hinv : Inv db) (op : Op) : Inv (execOp db op) := by
  cases op with
  | save uuid now content ctx metadata =>
    by_cases hdup : (db.rows.any fun r => r.id == uuid) = true
    · simp only [execOp]
      rw [save_of_dup hdup]
      exact hinv
    · rw [Bool.not_eq_true] at hdup
      simp only [execOp]
      rw [save_of_fresh hdup]
      refine ⟨?_, ?_, ?_, ?_⟩
      · rw [List.map_append, List.nodup_append]
        refine ⟨hinv.rowidsNodup, by simp, ?_⟩
        intro a ha hb
        simp only [List.map_cons, List.map_nil, List.mem_cons,
          List.not_mem_nil, or_false] at hb
        obtain ⟨r, hr, hrw⟩ := List.mem_map.mp ha
        exact absurd (hrw.trans hb) (Nat.ne_of_lt (hinv.rowidsLt r hr))
      · rw [List.map_append, List.nodup_append]
        refine ⟨hinv.idsNodup, by simp, ?_⟩
        intro a ha hb
        simp only [List.map_cons, List.map_nil, List.mem_cons,
          List.not_mem_nil, or_false] at hb
        obtain ⟨r, hr, hrw⟩ := List.mem_map.mp ha
        rw [List.any_eq_false] at hdup
        have := hdup r hr
        rw [hrw, hb] at this
        simp at this
      · intro r hr
        rcases List.mem_append.mp hr with hm | hm
        · exact Nat.lt_succ_of_lt (hinv.rowidsLt r hm)
        · simp only [List.mem_cons, List.not_mem_nil, or_false] at hm
          subst hm
          exact Nat.lt_succ_self _
      · rw [List.map_append, hinv.ftsMirror]
        rfl
  | update id now content? metadata? =>
    simp only [execOp]
    cases hfind : db.rows.find? (fun r => r.id == id) with
    | none =>
      rw [update_of_missing hfind]
      exact hinv
    | some existing =>
      rw [update_of_found hfind]
      simp only
      refine ⟨?_, ?_, ?_, ?_⟩
      · rw [List.map_map]
        have hcongr : List.map (Row.rowid ∘ applyUpd id now
            (content?.getD existing.content) (metadata?.or existing.metadata))
            db.rows = List.map Row.rowid db.rows :=
          List.map_congr_left (fun r _ => applyUpd_rowid _ _ _ _ r)
        rw [hcongr]
        exact hinv.rowidsNodup
      · rw [List.map_map]
        have hcongr : List.map (Row.id ∘ applyUpd id now
            (content?.getD existing.content) (metadata?.or existing.metadata))
            db.rows = List.map Row.id db.rows :=
          List.map_congr_left (fun r _ => applyUpd_id _ _ _ _ r)
        rw [hcongr]
        exact hinv.idsNodup
      · intro r hr
        obtain ⟨r0, hr0, hr0eq⟩ := List.mem_map.mp hr
        rw [← hr0eq, applyUpd_rowid]
        exact hinv.rowidsLt r0 hr0
      · rw [hinv.ftsMirror, List.map_map, List.map_map]
        exact List.map_congr_left (fun r hr =>
          applyUpdFts_mirror hinv.rowidsNodup hr id now _ _)
  | del id =>
    simp only [execOp, DB.delete]
    refine ⟨?_, ?_, ?_, ?_⟩
    · exact hinv.rowidsNodup.sublist ((List.filter_sublist _).map Row.rowid)
    · exact hinv.idsNodup.sublist ((List.filter_sublist _).map Row.id)
    · intro r hr
      exact hinv.rowidsLt r (List.mem_of_mem_filter hr)
    · simp only
      rw [hinv.ftsMirror, List.filter_map]
      have : ∀ r ∈ db.rows,
          ((fun f => !(db.rows.any fun row => row.id == id && row.rowid == f.rowid))
            ∘ mirror) r = !(r.id == id) := by
        intro r hr
        simp only [Function.comp_apply, mirror]
        rw [any_id_rowid_eq hinv.rowidsNodup hr]
      rw [List.filter_congr this]

/-- Invariant preservation along any operation sequence from any invariant
state. -/
theorem inv_foldl {db : DB} (hinv : Inv db) (ops : List Op) :
    Inv (ops.foldl execOp db) := by
  induction ops generalizing db with
  | nil => exact hinv
  | cons op rest ih => exact ih (inv_execOp hinv op)

/-- Every state reachable by a sequence of completed create/update/delete
operations satisfies the index-consistency invariant. -/
theorem inv_execOps (ops : List Op) : Inv (execOps ops) :=
  inv_foldl inv_empty ops

/-- `find?` only depends on the predicate's values on the list. -/
theorem find?_congr_on {α : Type} {p q : α → Bool} {l : List α}
    (h : ∀ a ∈ l, p a = q a) : l.find? p = l.find? q := by
  induction l with
  | nil => rfl
  | cons x t ih =>
    simp only [List.find?_cons, h x (List.mem_cons_self x t)]
    cases q x with
    | true => rfl
    | false => exact ih (fun a ha => h a (List.mem_cons_of_mem x ha))

/-- Unfolding `search` on a query FTS5 rejects. -/
theorem search_of_invalid {db : DB} {e : Fts5Engine} {query : String}
    {context : Option String} {limit offset : Nat}
    (h : e.valid query = false) :
    db.search e query context limit offset = .error .querySyntax := by
  simp [DB.search, h]

/-- Unfolding `search` on a query FTS5 accepts. -/
theorem search_of_valid {db : DB} {e : Fts5Engine} {query : String}
    {context : Option String} {limit offset : Nat}
    (h : e.valid query = true) :
    db.search e query context limit offset =
      .ok ⟨(((List.insertionSort (rankLe e query)
            (searchJoin db e query context)).drop offset).take limit).map
          (fun p => rowToInsight p.1),
        (searchJoin db e query context).length,
        decide (offset + (((List.insertionSort (rankLe e query)
            (searchJoin db e query context)).drop offset).take limit).length <
          (searchJoin db e query context).length)⟩ := by
  simp [DB.search, h]

/-- Soundness of the `JOIN`: every pair produced by the joined, filtered query
comes from a live primary row and its FTS entry, and respects a truthy
context filter. -/
theorem searchJoin_sound {db : DB} {e : Fts5Engine} {query : String}
    {context : Option String} {p : Row × FtsRow}
    (hp : p ∈ searchJoin db e query context) :
    p.1 ∈ db.rows ∧ p.2 ∈ db.fts ∧
      (∀ c, context = some c → c ≠ "" → p.1.context = c) := by
  obtain ⟨f, hf, heq⟩ := List.mem_filterMap.mp hp
  by_cases hm : e.matchQ query f.content f.metadata = true
  · rw [if_pos hm] at heq
    cases hfind : db.rows.find? (fun r => r.rowid == f.rowid) with
    | none => rw [hfind] at heq; cases heq
    | some r =>
      rw [hfind] at heq
      have hrmem : r ∈ db.rows := List.mem_of_find?_eq_some hfind
      have heq2 : (if truthy context = true then
          (if (r.context == context.getD "") = true then some (r, f) else none)
          else some (r, f)) = some p := heq
      by_cases ht : truthy context = true
      · rw [if_pos ht] at heq2
        by_cases hc : (r.context == context.getD "") = true
        · rw [if_pos hc] at heq2
          cases heq2
          refine ⟨hrmem, hf, ?_⟩
          intro c hcs _
          rw [beq_iff_eq] at hc
          rw [hc, hcs, Option.getD_some]
        · rw [if_neg hc] at heq2
          cases heq2
      · rw [if_neg ht] at heq2
        cases heq2
        refine ⟨hrmem, hf, ?_⟩
        intro c hcs hcne
        rw [hcs] at ht
        exact absurd (by simp [truthy, hcne]) ht
  · rw [if_neg hm] at heq
    cases heq

/-- Completeness of the `JOIN` in the unfiltered case: under the invariant,
every live row whose FTS entry matches the query appears in the joined set
paired with its mirror. -/
theorem searchJoin_complete {db : DB} (hinv : Inv db) {e : Fts5Engine}
    {query : String} {r : Row} (hr : r ∈ db.rows)
    (hm : e.matchQ query r.content r.metadata = true) :
    (r, mirror r) ∈ searchJoin db e query none := by
  apply List.mem_filterMap.mpr
  refine ⟨mirror r, ?_, ?_⟩
  · rw [hinv.ftsMirror]
    exact List.mem_map_of_mem mirror hr
  · show (if e.matchQ query r.content r.metadata then _ else _) = _
    rw [if_pos hm]
    have : db.rows.find? (fun row => row.rowid == (mirror r).rowid) = some r :=
      find?_rowid_eq hinv.rowidsNodup hr
    rw [this]
    rfl

/-- The joined set is no larger than the FTS table. -/
theorem searchJoin_length_le (db : DB) (e : Fts5Engine) (query : String)
    (context : Option String) :
    (searchJoin db e query context).length ≤ db.fts.length :=
  List.length_filterMap_le _ _

/-- Under the invariant, each live row has exactly one FTS entry keyed by its
rowid, and that entry carries the row's current content and metadata. -/
theorem fts_entry_unique {db : DB} (hinv : Inv db) {r : Row}
    (hr : r ∈ db.rows) :
    db.fts.filter (fun f => f.rowid == r.rowid) = [mirror r] := by
  rw [hinv.ftsMirror, List.filter_map]
  have hcongr : db.rows.filter
      ((fun f => f.rowid == r.rowid) ∘ mirror) =
      db.rows.filter (fun row => row.rowid == r.rowid) :=
    List.filter_congr (fun a _ => rfl)
  rw [hcongr, filter_rowid_eq hinv.rowidsNodup hr]
  rfl

/-- Under the invariant, every FTS entry is the mirror of a live row. -/
theorem fts_entry_live {db : DB} (hinv : Inv db) {f : FtsRow}
    (hf : f ∈ db.fts) : ∃ r ∈ db.rows, f = mirror r := by
  rw [hinv.ftsMirror] at hf
  obtain ⟨r, hr, hrf⟩ := List.mem_map.mp hf
  exact ⟨r, hr, hrf.symm⟩

/-- Under the invariant, an unfiltered search whose query the engine accepts
and which matches a live row's indexed content returns that row (with a page
large enough to hold every candidate and offset 0). -/
theorem search_recall {db : DB} (hinv : Inv db) {e : Fts5Engine} {r : Row}
    (hr : r ∈ db.rows) (hv : e.valid r.content = true)
    (hm : e.matchQ r.content r.content r.metadata = true)
    {limit : Nat} (hl : db.rows.length ≤ limit) :
    ∃ page, db.search e r.content none limit 0 = .ok page ∧
      rowToInsight r ∈ page.results := by
  refine ⟨_, search_of_valid hv, ?_⟩
  have hmem : (r, mirror r) ∈ searchJoin db e r.content none :=
    searchJoin_complete hinv hr hm
  have hlen : (List.insertionSort (rankLe e r.content)
      (searchJoin db e r.content none)).length ≤ limit := by
    rw [List.length_insertionSort]
    calc (searchJoin db e r.content none).length
        ≤ db.fts.length := searchJoin_length_le _ _ _ _
      _ = db.rows.length := by rw [hinv.ftsMirror, List.length_map]
      _ ≤ limit := hl
  rw [List.drop_zero, List.take_of_length_le hlen]
  exact List.mem_map_of_mem _
    ((List.perm_insertionSort (rankLe e r.content) _).mem_iff.mpr hmem)

/-- Every record a search returns is a live row of the primary table: a
search can never surface a deleted id. -/
theorem search_sound {db : DB} {e : Fts5Engine} {query : String}
    {context : Option String} {limit offset : Nat} {page : Page}
    (h : db.search e query context limit offset = .ok page) :
    ∀ i ∈ page.results, ∃ r ∈ db.rows, i = rowToInsight r := by
  intro i hi
  by_cases hv : e.valid query = true
  · rw [search_of_valid hv] at h
    cases h
    obtain ⟨p, hp, hpi⟩ := List.mem_map.mp hi
    have hpj : p ∈ searchJoin db e query context :=
      (List.perm_insertionSort (rankLe e query) _).mem_iff.mp
        (List.mem_of_mem_drop (List.mem_of_mem_take hp))
    exact ⟨p.1, (searchJoin_sound hpj).1, hpi.symm⟩
  · rw [search_of_invalid (Bool.not_eq_true _ ▸ hv)] at h
    cases h

/-- C1: after every sequence of completed create/update/delete operations,
every live Insight has exactly one search-index entry keyed by its row
identity and carrying its current content and serialized metadata; every
index entry belongs to a live row; an (unfiltered, sufficiently wide)
search for the exact current content of a live record returns that record
whenever the engine accepts the content as a query matching its own
document; and no search ever returns a record that is not live (hence never
a deleted id). -/
theorem index_consistency_after_ops (ops : List Op) :
    (∀ r ∈ (execOps ops).rows,
      (execOps ops).fts.filter (fun f => f.rowid == r.rowid) = [mirror r]) ∧
    (∀ f ∈ (execOps ops).fts, ∃ r ∈ (execOps ops).rows, f = mirror r) ∧
    (∀ (e : Fts5Engine) (r : Row), r ∈ (execOps ops).rows →
      e.valid r.content = true →
      e.matchQ r.content r.content r.metadata = true →
      ∀ limit, (execOps ops).rows.length ≤ limit →
      ∃ page, (execOps ops).search e r.content none limit 0 = .ok page ∧
        rowToInsight r ∈ page.results) ∧
    (∀ (e : Fts5Engine) (q : String) (ctx : Option String)
      (limit offset : Nat) (page : Page),
      (execOps ops).search e q ctx limit offset = .ok page →
      ∀ i ∈ page.results, ∃ r ∈ (execOps ops).rows, i = rowToInsight r) := by
  have hinv := inv_execOps ops
  refine ⟨?_, ?_, ?_, ?_⟩
  · intro r hr
    exact fts_entry_unique hinv hr
  · intro f hf
    exact fts_entry_live hinv hf
  · intro e r hr hv hm limit hl
    exact search_recall hinv hr hv hm hl
  · intro e q ctx limit offset page h
    exact search_sound h

/-! ## Claim theorems -/

/-- A demonstration FTS engine: every nonempty query parses while the empty
string is a query-syntax error (as in FTS5, whose query parser rejects
`MATCH ''`), a document matches a query equal to its content column, all
ranks are equal. -/
def demoEngine : Fts5Engine :=
  ⟨fun q => !(q == ""), fun q c _ => q == c, fun _ _ _ => 0⟩

/-- A demonstration operation sequence: two creations and one deletion. -/
def demoOps : List Op :=
  [.save "a1" 10 "hello world" "ctx1" none,
   .save "b2" 20 "bye" "ctx1" (some "mm"),
   .del "b2"]

/-- The single row live after `demoOps`. -/
def demoRow : Row :=
  ⟨1, "a1", "hello world", "ctx1", none, 10, 10⟩

/-- C10: `list` and `search` treat `context = ""` exactly like an omitted
context — the `WHERE context = ?` filter is only appended when the context
argument is truthy, and the empty string is falsy, so records of all
contexts are returned. -/
theorem empty_context_is_unfiltered (db : DB) (e : Fts5Engine) (q : String)
    (limit offset : Nat) :
    db.list (some "") limit offset = db.list none limit offset ∧
    db.search e q (some "") limit offset = db.search e q none limit offset :=
  ⟨rfl, rfl⟩

/-- C3: in HTTP mode the `list-insights` handler does NOT reject a call with
an absent `context`: `context ? getContext(context) : undefined` skips the
`getContext` guard entirely, so the store is invoked unfiltered and returns
records of every context — here a record saved under context "B" — instead of
raising the "context required" fault. -/
theorem http_list_without_context_reaches_store :
    listHandler .http "/srv" (execOps [.save "b1" 100 "hello" "B" none])
        none 20 0 =
      .ok ⟨[⟨"b1", "hello", "B", none, 100, 100⟩], 1, false⟩ :=
  rfl

/-- C4: creating a record with a fresh uuid and reading it back by the
returned id yields a record with the given content, context and metadata,
and with `created_at = updated_at = now`, the creation timestamp. -/
theorem save_get_roundtrip (db : DB) (uuid : String) (now : Nat)
    (c ctx : String) (m : Option String)
    (hfresh : (db.rows.any fun r => r.id == uuid) = false) :
    ∃ db2 ins, db.save uuid now c ctx m = .ok (db2, ins) ∧
      db2.get ins.id = some ⟨uuid, c, ctx, m, now, now⟩ := by
  rw [save_of_fresh hfresh]
  refine ⟨_, _, rfl, ?_⟩
  show DB.get _ uuid = _
  unfold DB.get
  rw [List.find?_append]
  have h1 : db.rows.find? (fun r => r.id == uuid) = none := by
    rw [List.find?_eq_none]
    intro x hx
    rw [List.any_eq_false] at hfresh
    exact hfresh x hx
  rw [h1]
  simp [List.find?_cons, rowToInsight]

/-- C4 witness: the round-trip at a concrete input. -/
theorem save_get_roundtrip_witness :
    ((DB.empty.rows.any fun r => r.id == "u1") = false) ∧
    ∃ db2 ins, DB.empty.save "u1" 5 "hi" "ctx" (some "mm") = .ok (db2, ins) ∧
      db2.get ins.id = some ⟨"u1", "hi", "ctx", some "mm", 5, 5⟩ :=
  ⟨rfl, save_get_roundtrip DB.empty "u1" 5 "hi" "ctx" (some "mm") rfl⟩

/-- Looking up the updated id after an `update` finds the updated image of
the row `get` found before. -/
theorem find?_after_update {db : DB} {id : String} {r : Row}
    (hfind : db.rows.find? (fun row => row.id == id) = some r)
    (now : Nat) (content : String) (metadata : Option String) :
    (db.rows.map (applyUpd id now content metadata)).find?
        (fun row => row.id == id) =
      some (applyUpd id now content metadata r) := by
  rw [List.find?_map]
  have hcongr : db.rows.find?
      ((fun row => row.id == id) ∘ applyUpd id now content metadata) =
      db.rows.find? (fun row => row.id == id) :=
    find?_congr_on (fun a _ => by
      show ((applyUpd id now content metadata a).id == id) = (a.id == id)
      rw [applyUpd_id])
  rw [hcongr, hfind]
  rfl

/-- C5: partial-update frame conditions, for a record found by `get` and a
strictly advanced clock: a content-only update leaves the stored metadata
(and id, context, `created_at`) unchanged; a metadata-only update leaves the
stored content unchanged and replaces the metadata wholesale with exactly
the supplied value; every update stamps `updated_at = now`, strictly above
its previous value; and no update ever alters the id, context or
`created_at` of any row of the table. -/
theorem update_frame (db : DB) (id : String) (now : Nat) (x : String)
    (m : String) (r : Row)
    (hfind : db.rows.find? (fun row => row.id == id) = some r)
    (hnow : r.updated_at < now) :
    (((db.update id now (some x) none).1).get id =
      some ⟨r.id, x, r.context, r.metadata, r.created_at, now⟩) ∧
    (((db.update id now none (some m)).1).get id =
      some ⟨r.id, r.content, r.context, some m, r.created_at, now⟩) ∧
    (∀ c? m?, ∃ rec, ((db.update id now c? m?).1).get id = some rec ∧
      rec.content = c?.getD r.content ∧
      rec.metadata = m?.or r.metadata ∧
      rec.id = r.id ∧ rec.context = r.context ∧
      rec.created_at = r.created_at ∧
      r.updated_at < rec.updated_at) ∧
    (∀ c? m?, ((db.update id now c? m?).1).rows.map
        (fun row => (row.id, row.context, row.created_at)) =
      db.rows.map (fun row => (row.id, row.context, row.created_at))) := by
  have hid := List.find?_some hfind
  have hmain : ∀ c? m?, ((db.update id now c? m?).1).get id =
      some ⟨r.id, c?.getD r.content, r.context, m?.or r.metadata,
        r.created_at, now⟩ := by
    intro c? m?
    rw [update_of_found hfind]
    show DB.get _ id = _
    unfold DB.get
    rw [find?_after_update hfind]
    show some (rowToInsight (applyUpd _ _ _ _ r)) = _
    unfold applyUpd
    rw [if_pos hid]
    rfl
  refine ⟨hmain (some x) none, hmain none (some m), ?_, ?_⟩
  · intro c? m?
    exact ⟨_, hmain c? m?, rfl, rfl, rfl, rfl, rfl, hnow⟩
  · intro c? m?
    rw [update_of_found hfind]
    show (db.rows.map _).map _ = _
    rw [List.map_map]
    exact List.map_congr_left (fun a _ => by
      show ((applyUpd _ _ _ _ a).id, (applyUpd _ _ _ _ a).context,
        (applyUpd _ _ _ _ a).created_at) = _
      rw [applyUpd_id, applyUpd_context, applyUpd_created_at])

/-- C5 witness: the frame conditions at a concrete record and input. -/
theorem update_frame_witness :
    ((execOps [.save "u1" 5 "old" "ctx" (some "om")]).rows.find?
        (fun row => row.id == "u1") =
      some ⟨1, "u1", "old", "ctx", some "om", 5, 5⟩) ∧ (5 < 9) ∧
    ((((execOps [.save "u1" 5 "old" "ctx" (some "om")]).update "u1" 9
        (some "new") none).1).get "u1" =
      some ⟨"u1", "new", "ctx", some "om", 5, 9⟩) :=
  ⟨rfl, by decide,
    (update_frame (execOps [.save "u1" 5 "old" "ctx" (some "om")]) "u1" 9
      "new" "mm" ⟨1, "u1", "old", "ctx", some "om", 5, 5⟩ rfl
      (by decide)).1⟩

/-- The context filter never enlarges the table. -/
theorem listFiltered_length_le (db : DB) (ctx : Option String) :
    (listFiltered db ctx).length ≤ db.rows.length := by
  unfold listFiltered
  split
  · exact List.length_filter_le _ _
  · exact le_refl _

/-- C6: the pagination contract of `list`: `total` is the count of matching
records and is independent of the pagination window; a full-width page
returns exactly `total` records; `hasMore = offset + results.length < total`;
`limit = 0` yields an empty page without fault; an offset at or beyond
`total` yields an empty page with `hasMore = false`. -/
theorem list_pagination_contract (db : DB) (ctx : Option String)
    (limit offset : Nat) :
    ((db.list ctx limit offset).total = (listFiltered db ctx).length) ∧
    (∀ l2 o2, (db.list ctx limit offset).total = (db.list ctx l2 o2).total) ∧
    ((db.list ctx db.rows.length 0).results.length =
      (db.list ctx limit offset).total) ∧
    ((db.list ctx limit offset).hasMore =
      decide (offset + (db.list ctx limit offset).results.length <
        (db.list ctx limit offset).total)) ∧
    ((db.list ctx 0 offset).results = []) ∧
    ((db.list ctx limit offset).total ≤ offset →
      (db.list ctx limit offset).results = [] ∧
      (db.list ctx limit offset).hasMore = false) := by
  refine ⟨rfl, fun l2 o2 => rfl, ?_, ?_, ?_, ?_⟩
  · show ((((List.insertionSort createdDesc (listFiltered db ctx)).drop 0).take
      db.rows.length).map rowToInsight).length = (listFiltered db ctx).length
    rw [List.length_map, List.drop_zero, List.length_take,
      List.length_insertionSort]
    exact min_eq_right (listFiltered_length_le db ctx)
  · simp only [DB.list, List.length_map]
  · show (((List.insertionSort createdDesc (listFiltered db ctx)).drop
      offset).take 0).map rowToInsight = []
    rw [List.take_zero, List.map_nil]
  · intro h
    have hd : (List.insertionSort createdDesc (listFiltered db ctx)).drop
        offset = [] :=
      List.drop_eq_nil_of_le (by rw [List.length_insertionSort]; exact h)
    constructor
    · simp only [DB.list]
      rw [hd, List.take_nil, List.map_nil]
    · simp only [DB.list]
      rw [hd, List.take_nil]
      exact decide_eq_false (by simpa using h)

/-- Concatenating the consecutive length-`L` chunks of a list, `k` of them,
recovers its first `k·L` elements. -/
theorem flatten_chunks {α : Type} (l : List α) (L : Nat) :
    ∀ k, ((List.range k).map (fun i => (l.drop (i*L)).take L)).flatten =
      l.take (k*L)
  | 0 => by simp
  | (k+1) => by
    rw [List.range_succ, List.map_append, List.flatten_append,
      flatten_chunks l L k]
    simp only [List.map_cons, List.map_nil, List.flatten_cons,
      List.flatten_nil, List.append_nil]
    rw [Nat.succ_mul, List.take_add]

/-- C7: `list` pages are ordered by `created_at` descending; for a positive
page size `L`, concatenating the pages at offsets `0, L, 2L, …` (enough of
them to cover `total`) reconstructs exactly the full ordered record set; and
`hasMore` is `false` precisely on the pages from the last one on. -/
theorem list_ordering_and_pages (db : DB) (ctx : Option String) (L : Nat)
    (_hL : 0 < L) :
    (∀ limit offset, (db.list ctx limit offset).results.Pairwise
      (fun a b => b.created_at ≤ a.created_at)) ∧
    (∀ k, (db.list ctx L 0).total ≤ k*L →
      ((List.range k).map (fun i => (db.list ctx L (i*L)).results)).flatten =
        (db.list ctx ((db.list ctx L 0).total) 0).results) ∧
    (∀ i, ((db.list ctx L (i*L)).hasMore = false ↔
      (db.list ctx L 0).total ≤ (i+1)*L)) := by
  have hs : List.Sorted createdDesc
      (List.insertionSort createdDesc (listFiltered db ctx)) :=
    List.sorted_insertionSort _ _
  have hlen : (List.insertionSort createdDesc (listFiltered db ctx)).length =
      (listFiltered db ctx).length := List.length_insertionSort _ _
  refine ⟨?_, ?_, ?_⟩
  · intro limit offset
    show ((((List.insertionSort createdDesc (listFiltered db ctx)).drop
      offset).take limit).map rowToInsight).Pairwise _
    refine List.Pairwise.map rowToInsight (fun a b h => h) ?_
    exact hs.sublist ((List.take_sublist _ _).trans (List.drop_sublist _ _))
  · intro k hk
    show (((List.range k).map (fun i =>
      (((List.insertionSort createdDesc (listFiltered db ctx)).drop
        (i*L)).take L).map rowToInsight))).flatten = _
    have hmm : (List.range k).map (fun i =>
        (((List.insertionSort createdDesc (listFiltered db ctx)).drop
          (i*L)).take L).map rowToInsight) =
        ((List.range k).map (fun i =>
          ((List.insertionSort createdDesc (listFiltered db ctx)).drop
            (i*L)).take L)).map (List.map rowToInsight) := by
      rw [List.map_map]
      rfl
    rw [hmm, ← List.map_flatten, flatten_chunks _ L k,
      List.take_of_length_le (by rw [hlen]; exact hk)]
    show _ = (((List.insertionSort createdDesc (listFiltered db ctx)).drop
      0).take ((listFiltered db ctx).length)).map rowToInsight
    rw [List.drop_zero, List.take_of_length_le (le_of_eq hlen)]
  · intro i
    show (decide (i*L + (((List.insertionSort createdDesc
      (listFiltered db ctx)).drop (i*L)).take L).length <
        (listFiltered db ctx).length) = false) ↔ _
    rw [List.length_take, List.length_drop, hlen,
      decide_eq_false_iff_not, Nat.not_lt]
    show (listFiltered db ctx).length ≤
      i*L + min L ((listFiltered db ctx).length - i*L) ↔
      (listFiltered db ctx).length ≤ (i+1)*L
    rw [Nat.succ_mul]
    rcases Nat.le_total L ((listFiltered db ctx).length - i*L) with h | h
    · rw [min_eq_left h]
    · rw [min_eq_right h]
      omega

/-- C1 witness: the invariant/search conjunction applied after a concrete
create/create/delete sequence, searching for the surviving record's exact
content. -/
theorem index_consistency_witness :
    (demoRow ∈ (execOps demoOps).rows) ∧
    (demoEngine.valid demoRow.content = true) ∧
    (demoEngine.matchQ demoRow.content demoRow.content demoRow.metadata
      = true) ∧
    ((execOps demoOps).rows.length ≤ 1) ∧
    (∃ page, (execOps demoOps).search demoEngine demoRow.content none 1 0 =
        .ok page ∧ rowToInsight demoRow ∈ page.results) :=
  ⟨by decide, by decide, by decide, by decide,
    (index_consistency_after_ops demoOps).2.2.1 demoEngine demoRow
      (by decide) (by decide) (by decide) 1 (by decide)⟩

/-- C6 witness: the contract at a concrete store, with the offset past the
total. -/
theorem list_pagination_contract_witness :
    (((execOps [.save "a1" 10 "hello" "A" none]).list none 20 5).total ≤ 5) ∧
    (((execOps [.save "a1" 10 "hello" "A" none]).list none 20 5).results
      = []) ∧
    (((execOps [.save "a1" 10 "hello" "A" none]).list none 20 5).hasMore
      = false) :=
  ⟨by decide,
    ((list_pagination_contract (execOps [.save "a1" 10 "hello" "A" none])
      none 20 5).2.2.2.2.2 (by decide)).1,
    ((list_pagination_contract (execOps [.save "a1" 10 "hello" "A" none])
      none 20 5).2.2.2.2.2 (by decide)).2⟩

/-- A demonstration sequence of three creations in one context with
increasing timestamps. -/
def pageOps : List Op :=
  [.save "p1" 1 "one" "P" none,
   .save "p2" 2 "two" "P" none,
   .save "p3" 3 "three" "P" none]

/-- C7 witness: pages of size 2 over three records reassemble the full
ordered set. -/
theorem list_ordering_and_pages_witness :
    (0 < 2) ∧
    (((execOps pageOps).list none 2 0).total ≤ 2*2) ∧
    (((List.range 2).map
        (fun i => ((execOps pageOps).list none 2 (i*2)).results)).flatten =
      ((execOps pageOps).list none (((execOps pageOps).list none 2 0).total)
        0).results) :=
  ⟨by decide, by decide,
    (list_ordering_and_pages (execOps pageOps) none 2 (by decide)).2.1
      2 (by decide)⟩

/-- C8 (amended): a query the engine accepts that matches nothing makes
`search` return `{results: [], total: 0, hasMore: false}` without faulting,
while a query the engine's parser rejects — which includes the empty query
under FTS5 — surfaces as a query-syntax fault, distinct from the zero-result
outcome. -/
theorem search_zero_result_vs_syntax_fault (db : DB) (e : Fts5Engine)
    (q : String) (ctx : Option String) (limit offset : Nat) :
    (e.valid q = true →
      (∀ f ∈ db.fts, e.matchQ q f.content f.metadata = false) →
      db.search e q ctx limit offset = .ok ⟨[], 0, false⟩) ∧
    (e.valid q = false →
      db.search e q ctx limit offset = .error .querySyntax) := by
  constructor
  · intro hv hnone
    have hj : searchJoin db e q ctx = [] := by
      rw [searchJoin, List.filterMap_eq_nil_iff]
      intro f hf
      rw [if_neg (by rw [hnone f hf]; exact Bool.false_ne_true)]
    rw [search_of_valid hv, hj]
    simp
  · exact fun h => search_of_invalid h

/-- C8 witness: both outcomes on a concrete store: a parse-accepted query
matching no indexed row, and a parse-rejected (empty) query. -/
theorem search_zero_result_vs_syntax_fault_witness :
    (demoEngine.valid "zzz" = true) ∧
    (∀ f ∈ (execOps demoOps).fts,
      demoEngine.matchQ "zzz" f.content f.metadata = false) ∧
    ((execOps demoOps).search demoEngine "zzz" none 20 0 =
      .ok ⟨[], 0, false⟩) ∧
    (demoEngine.valid "" = false) ∧
    ((execOps demoOps).search demoEngine "" none 20 0 =
      .error .querySyntax) :=
  ⟨by decide, by decide,
    (search_zero_result_vs_syntax_fault (execOps demoOps) demoEngine "zzz"
      none 20 0).1 (by decide) (by decide),
    by decide,
    (search_zero_result_vs_syntax_fault (execOps demoOps) demoEngine ""
      none 20 0).2 (by decide)⟩

/-- C8 counterexample: the claim's empty-query clause fails on the code.
`search` passes the raw query string straight to `MATCH` with no
empty-string special case, and the FTS5 query parser rejects the empty
string, so searching for `""` surfaces the query-syntax fault instead of
returning the `{results: [], total: 0, hasMore: false}` page the claim
asserts. -/
theorem empty_query_faults_instead_of_empty_page :
    (execOps demoOps).search demoEngine "" none 20 0 = .error .querySyntax ∧
    ¬((execOps demoOps).search demoEngine "" none 20 0 =
      .ok ⟨[], 0, false⟩) :=
  ⟨rfl, fun h => Except.noConfusion h⟩

/-- C9: with a nonempty context filter `c`, every record `list` or `search`
returns carries context `c` (so records created under any other context are
never returned), and the reported totals count only the records matching
`c`. -/
theorem context_isolation (db : DB) (e : Fts5Engine) (q : String)
    (c : String) (hc : c ≠ "") (limit offset : Nat) :
    (∀ i ∈ (db.list (some c) limit offset).results, i.context = c) ∧
    ((db.list (some c) limit offset).total =
      (db.rows.filter (fun r => r.context == c)).length) ∧
    (∀ page, db.search e q (some c) limit offset = .ok page →
      (∀ i ∈ page.results, i.context = c) ∧
      page.total = (searchJoin db e q (some c)).length ∧
      (∀ p ∈ searchJoin db e q (some c), p.1.context = c)) := by
  have ht : truthy (some c) = true := by
    simp [truthy, hc]
  have hfil : listFiltered db (some c) =
      db.rows.filter (fun r => r.context == c) := by
    unfold listFiltered
    rw [if_pos ht]
    rfl
  refine ⟨?_, ?_, ?_⟩
  · intro i hi
    obtain ⟨row, hrow, hri⟩ := List.mem_map.mp hi
    have hrowmem : row ∈ listFiltered db (some c) :=
      (List.perm_insertionSort createdDesc _).mem_iff.mp
        (List.mem_of_mem_drop (List.mem_of_mem_take hrow))
    rw [hfil] at hrowmem
    have := (List.mem_filter.mp hrowmem).2
    rw [beq_iff_eq] at this
    rw [← hri]
    exact this
  · show (listFiltered db (some c)).length = _
    rw [hfil]
  · intro page h
    by_cases hv : e.valid q = true
    · rw [search_of_valid hv] at h
      cases h
      refine ⟨?_, rfl, ?_⟩
      · intro i hi
        obtain ⟨p, hp, hpi⟩ := List.mem_map.mp hi
        have hpj : p ∈ searchJoin db e q (some c) :=
          (List.perm_insertionSort (rankLe e q) _).mem_iff.mp
            (List.mem_of_mem_drop (List.mem_of_mem_take hp))
        rw [← hpi]
        exact (searchJoin_sound hpj).2.2 c rfl hc
      · exact fun p hp => (searchJoin_sound hp).2.2 c rfl hc
    · rw [search_of_invalid (Bool.not_eq_true _ ▸ hv)] at h
      cases h

/-- A demonstration sequence creating one record under context "A" and one
under context "B". -/
def abOps : List Op :=
  [.save "x1" 1 "same text" "A" none,
   .save "x2" 2 "same text" "B" none]

/-- C9 witness: isolation of context "A" on a concrete two-context store. -/
theorem context_isolation_witness :
    ("A" ≠ "") ∧
    (∀ i ∈ ((execOps abOps).list (some "A") 10 0).results,
      i.context = "A") ∧
    (((execOps abOps).list (some "A") 10 0).total =
      ((execOps abOps).rows.filter (fun r => r.context == "A")).length) :=
  ⟨by decide,
    (context_isolation (execOps abOps) demoEngine "same text" "A"
      (by decide) 10 0).1,
    (context_isolation (execOps abOps) demoEngine "same text" "A"
      (by decide) 10 0).2.1⟩

end InsightsMCP
